import Mathlib

/-!
# LeanBLAS complex test-data generator and validation harness: a verification development

This file gives a shallow embedding of the two Python scripts of the repository
(`generate_complex_test_data.py` and `validate_complex_blas.py`) and proves the
specification's claims about them.

Modelling conventions:
* IEEE-754 double-precision scalars are modelled as exact rationals (`ℚ`); a complex
  scalar is a pair of rationals (`CQ`).
* The floating-point square root (used by `np.linalg.norm`) is modelled by a
  deterministic rational Newton iteration `ratSqrt`.
* numpy's globally seeded pseudo-random stream is modelled by a deterministic
  function `npRandn` of the seed and the draw index.
* Python dictionaries serialized by `json.dump` are modelled by the `JVal` tree.
-/

namespace LeanBLAS

/-- Complex scalar: a pair of double-precision floats, modelled as exact rationals.
Mirrors the `{"real": float, "imag": float}` data model of the generator. -/
structure CQ where
  re : ℚ
  im : ℚ
deriving DecidableEq, Repr

instance : Zero CQ := ⟨⟨0, 0⟩⟩
instance : One CQ := ⟨⟨1, 0⟩⟩
instance : Add CQ := ⟨fun a b => ⟨a.re + b.re, a.im + b.im⟩⟩
instance : Neg CQ := ⟨fun a => ⟨-a.re, -a.im⟩⟩
instance : Sub CQ := ⟨fun a b => ⟨a.re - b.re, a.im - b.im⟩⟩
instance : Mul CQ := ⟨fun a b => ⟨a.re * b.re - a.im * b.im, a.re * b.im + a.im * b.re⟩⟩

instance : CommRing CQ where
  nsmul := nsmulRec
  zsmul := zsmulRec
  add_assoc := by
    rintro ⟨x, y⟩ ⟨u, v⟩ ⟨p, q⟩
    show CQ.mk (x + u + p) (y + v + q) = CQ.mk (x + (u + p)) (y + (v + q))
    rw [CQ.mk.injEq]; constructor <;> ring
  zero_add := by
    rintro ⟨x, y⟩
    show CQ.mk (0 + x) (0 + y) = CQ.mk x y
    rw [CQ.mk.injEq]; constructor <;> ring
  add_zero := by
    rintro ⟨x, y⟩
    show CQ.mk (x + 0) (y + 0) = CQ.mk x y
    rw [CQ.mk.injEq]; constructor <;> ring
  add_comm := by
    rintro ⟨x, y⟩ ⟨u, v⟩
    show CQ.mk (x + u) (y + v) = CQ.mk (u + x) (v + y)
    rw [CQ.mk.injEq]; constructor <;> ring
  left_distrib := by
    rintro ⟨x, y⟩ ⟨u, v⟩ ⟨p, q⟩
    show CQ.mk (x * (u + p) - y * (v + q)) (x * (v + q) + y * (u + p)) =
      CQ.mk (x * u - y * v + (x * p - y * q)) (x * v + y * u + (x * q + y * p))
    rw [CQ.mk.injEq]; constructor <;> ring
  right_distrib := by
    rintro ⟨x, y⟩ ⟨u, v⟩ ⟨p, q⟩
    show CQ.mk ((x + u) * p - (y + v) * q) ((x + u) * q + (y + v) * p) =
      CQ.mk (x * p - y * q + (u * p - v * q)) (x * q + y * p + (u * q + v * p))
    rw [CQ.mk.injEq]; constructor <;> ring
  zero_mul := by
    rintro ⟨x, y⟩
    show CQ.mk (0 * x - 0 * y) (0 * y + 0 * x) = CQ.mk 0 0
    rw [CQ.mk.injEq]; constructor <;> ring
  mul_zero := by
    rintro ⟨x, y⟩
    show CQ.mk (x * 0 - y * 0) (x * 0 + y * 0) = CQ.mk 0 0
    rw [CQ.mk.injEq]; constructor <;> ring
  mul_assoc := by
    rintro ⟨x, y⟩ ⟨u, v⟩ ⟨p, q⟩
    show CQ.mk ((x * u - y * v) * p - (x * v + y * u) * q)
        ((x * u - y * v) * q + (x * v + y * u) * p) =
      CQ.mk (x * (u * p - v * q) - y * (u * q + v * p))
        (x * (u * q + v * p) + y * (u * p - v * q))
    rw [CQ.mk.injEq]; constructor <;> ring
  one_mul := by
    rintro ⟨x, y⟩
    show CQ.mk (1 * x - 0 * y) (1 * y + 0 * x) = CQ.mk x y
    rw [CQ.mk.injEq]; constructor <;> ring
  mul_one := by
    rintro ⟨x, y⟩
    show CQ.mk (x * 1 - y * 0) (x * 0 + y * 1) = CQ.mk x y
    rw [CQ.mk.injEq]; constructor <;> ring
  mul_comm := by
    rintro ⟨x, y⟩ ⟨u, v⟩
    show CQ.mk (x * u - y * v) (x * v + y * u) = CQ.mk (u * x - v * y) (u * y + v * x)
    rw [CQ.mk.injEq]; constructor <;> ring
  neg_add_cancel := by
    rintro ⟨x, y⟩
    show CQ.mk (-x + x) (-y + y) = CQ.mk 0 0
    rw [CQ.mk.injEq]; constructor <;> ring
  sub_eq_add_neg := by
    rintro ⟨x, y⟩ ⟨u, v⟩
    show CQ.mk (x - u) (y - v) = CQ.mk (x + -u) (y + -v)
    rw [CQ.mk.injEq]; constructor <;> ring

/-- Squared complex modulus `re² + im²` (exact). -/
def cmodSq (z : CQ) : ℚ := z.re ^ 2 + z.im ^ 2

/-- Complex conjugate. -/
def cconj (z : CQ) : CQ := ⟨z.re, -z.im⟩

/-- Complex multiplicative inverse (componentwise rational arithmetic). -/
def cinv (z : CQ) : CQ := ⟨z.re / cmodSq z, -z.im / cmodSq z⟩

/-- Complex division `a / b`. -/
def cdiv (a b : CQ) : CQ := a * cinv b

/-- Complex vector: ordered sequence of complex scalars. -/
abbrev CVec := List CQ

/-- Complex matrix: ordered sequence of rows. -/
abbrev CMat := List (List CQ)

/-- Deterministic rational model of the floating-point square root used by
`np.linalg.norm` and `np.sqrt` (Newton iteration with a fixed iteration count).
Floats are modelled as rationals, so the float sqrt becomes a fixed rational
approximation; it is a pure function of its argument. -/
def ratSqrt (q : ℚ) : ℚ :=
  (List.range 16).foldl (fun x _ => if x = 0 then 0 else (x + q / x) / 2) (q + 1)

/-- Unconjugated complex dot product, `np.dot(x, y)` on complex vectors
(`zdotu` in `generate_complex_test_data.py` line 47). -/
def zdotu (x y : CVec) : CQ := (List.zipWith (fun a b => a * b) x y).sum

/-- Conjugated complex dot product, `np.vdot(x, y)` (conjugates the first vector;
`zdotc`, generator line 50). -/
def zdotc (x y : CVec) : CQ := (List.zipWith (fun a b => cconj a * b) x y).sum

/-- Euclidean norm `np.linalg.norm(x)` (`dznrm2`, generator line 53), with the
float square root modelled by `ratSqrt`. -/
def dznrm2 (x : CVec) : ℚ := ratSqrt ((x.map cmodSq).sum)

/-- Sum of absolute values of real and imaginary parts:
`np.sum(np.abs(x.real)) + np.sum(np.abs(x.imag))` (`dzasum`, generator line 56
and `validate_asum` line 148). -/
def dzasum (x : CVec) : ℚ :=
  (x.map (fun z => |z.re|)).sum + (x.map (fun z => |z.im|)).sum

/-- Scale a vector by a complex scalar, `alpha * x` (`zscal`, generator line 59). -/
def zscal (a : CQ) (x : CVec) : CVec := x.map (fun z => a * z)

/-- Vector affine update `alpha * x + y` (`zaxpy`, generator line 62). -/
def zaxpy (a : CQ) (x y : CVec) : CVec := List.zipWith (fun xi yi => a * xi + yi) x y

/-- Elementwise vector addition. -/
def vaddV (x y : CVec) : CVec := List.zipWith (fun a b => a + b) x y

/-- Matrix-vector product `A @ x`: each row dotted (unconjugated) with `x`. -/
def matvec (A : CMat) (x : CVec) : CVec := A.map (fun row => zdotu row x)

/-- Transpose of a (rectangular) list matrix, reading entry `(j, i)` with `getD`. -/
def transposeM (B : CMat) : CMat :=
  (List.range (B.headD []).length).map (fun j => B.map (fun row => row.getD j 0))

/-- Conjugate transpose `A.conj().T`. -/
def conjT (A : CMat) : CMat :=
  (List.range (A.headD []).length).map (fun j => A.map (fun row => cconj (row.getD j 0)))

/-- Elementwise matrix addition. -/
def maddM (A B : CMat) : CMat := List.zipWith vaddV A B

/-- Scale a matrix by a rational (real) scalar. -/
def smulQM (c : ℚ) (A : CMat) : CMat := A.map (fun row => row.map (fun z => CQ.mk c 0 * z))

/-- Scale a matrix by a complex scalar. -/
def smulCM (a : CQ) (A : CMat) : CMat := A.map (fun row => row.map (fun z => a * z))

/-- Hermitian symmetrization `(A + A.conj().T) / 2` (generator lines 180, 223, 283). -/
def hermitize (A : CMat) : CMat := smulQM (1/2) (maddM A (conjT A))

/-- Matrix product `A @ B`. -/
def matmul (A B : CMat) : CMat :=
  A.map (fun row => (transposeM B).map (fun col => zdotu row col))

/-- Outer product `np.outer(x, y)`. -/
def outer (x y : CVec) : CMat := x.map (fun xi => y.map (fun yj => xi * yj))

/-- General matrix-vector affine update `alpha * A @ x + beta * y` (`zgemv`). -/
def zgemv (alpha : CQ) (A : CMat) (x : CVec) (beta : CQ) (y : CVec) : CVec :=
  List.zipWith (fun ax yi => alpha * ax + beta * yi) (matvec A x) y

/-- One row of `np.triu`: zero the entries whose absolute column index (starting
at `j0`) is smaller than the row index `i`. -/
def rowZero (i j0 : ℕ) : List CQ → List CQ
  | [] => []
  | z :: zs => (if i ≤ j0 then z else 0) :: rowZero i (j0 + 1) zs

/-- Rows `i0, i0+1, ...` of `np.triu`. -/
def triuFrom (i0 : ℕ) : CMat → CMat
  | [] => []
  | r :: rs => rowZero i0 0 r :: triuFrom (i0 + 1) rs

/-- Upper-triangular extraction `np.triu(A)` (generator line 186): entries with
row index greater than column index are replaced by the zero complex value. -/
def triu (A : CMat) : CMat := triuFrom 0 A

/-- Back-substitution solver for upper-triangular systems, structured on the
dimension `n`. Modelled from the spec: the repository delegates the triangular
solve to `np.linalg.solve(U, b)` (generator line 193), whose implementation is
not part of the repository; §4.2 of the spec specifies `triangular_solve(U, b)`
returning `x` with `U·x = b` and failing with `SingularMatrixError` on a zero
diagonal entry. `none` models the `SingularMatrixError` outcome. -/
def triSolve : ℕ → CMat → CVec → Option CVec
  | 0, _, _ => some []
  | n + 1, U, b =>
    match U, b with
    | (p :: r0) :: rows, b0 :: bs =>
      match triSolve n (rows.map (fun r => r.drop 1)) bs with
      | some xt => if p = 0 then none else some (cdiv (b0 - zdotu r0 xt) p :: xt)
      | none => none
    | _, _ => none

/-- Modelled from the spec: `triangular_solve(U, b)` of §4.2 (the repository's
triangular solves go through numpy, outside `src/`). -/
def triangular_solve (U : CMat) (b : CVec) : Option CVec := triSolve U.length U b

/-- A list matrix is square when every row's length equals the row count. -/
def squareMat (U : CMat) : Prop := ∀ row ∈ U, row.length = U.length

/-- Upper-triangular shape: every entry whose row index exceeds its column
index is the zero complex value (entries read with `getD`, defaulting to 0
outside the stored rectangle). -/
def strictLowerZero (U : CMat) : Prop :=
  ∀ i j, j < i → ((U.getD i []).getD j 0) = 0

/-- Absolute comparison tolerance `DEFAULT_TOL = 1e-10`
(`validate_complex_blas.py` line 16). -/
def DEFAULT_TOL : ℚ := 1 / 10 ^ 10

/-- Comparison semantics of `np.allclose(a, b, rtol, atol)` on complex scalars:
`|a - b| <= atol + rtol * |b|`, with the complex modulus taken over the reals. -/
def np_allclose (rtol atol : ℚ) (a b : CQ) : Prop :=
  Real.sqrt ((cmodSq (a - b) : ℚ) : ℝ) ≤ (atol : ℝ) + (rtol : ℝ) * Real.sqrt ((cmodSq b : ℚ) : ℝ)

/-- The harness's per-value comparison: `np.allclose(result, expected, rtol=0,
atol=DEFAULT_TOL)` as called at `validate_complex_blas.py` line 64 (and the
corresponding lines of the other validators). -/
def comparison_passes (actual expected : CQ) : Prop :=
  np_allclose 0 DEFAULT_TOL actual expected

/-- JSON value tree, the wire format written by `json.dump` in `save_test_data`
(numbers are the rationals modelling floats). -/
inductive JVal where
  | jnum (q : ℚ)
  | jstr (s : String)
  | jarr (l : List JVal)
  | jobj (l : List (String × JVal))

/-- Value of one entry of a `results` dictionary: a complex scalar, a real
scalar, a vector, a matrix, or the two-vector `zswap` record. -/
inductive RVal where
  | rc (z : CQ)
  | rr (q : ℚ)
  | rv (v : CVec)
  | rm (m : CMat)
  | rswap (xa ya : CVec)
deriving DecidableEq, Repr

/-- Value of one field of a test-case dictionary. -/
inductive FVal where
  | fstr (s : String)
  | fnum (q : ℚ)
  | fc (z : CQ)
  | fv (v : CVec)
  | fm (m : CMat)
  | fres (rs : List (String × RVal))
deriving DecidableEq, Repr

/-- A test case: the ordered field list of the Python dictionary built by the
generator (inputs, dimensions, scalars, and the `results` mapping). -/
structure TestCase where
  fields : List (String × FVal)
deriving DecidableEq, Repr

/-- A test suite: the `self.test_data` mapping from level name to test cases. -/
structure TestSuite where
  level1 : List TestCase
  level2 : List TestCase
  level3 : List TestCase
deriving DecidableEq, Repr

/-- Serialize a complex scalar as `{"real": ..., "imag": ...}`
(`complex_to_dict`, generator line 12). -/
def encodeCQ (z : CQ) : JVal := .jobj [("real", .jnum z.re), ("imag", .jnum z.im)]

/-- Serialize a vector as an array of complex objects (`array_to_list`). -/
def encodeVec (v : CVec) : JVal := .jarr (v.map encodeCQ)

/-- Serialize a matrix as an array of rows (`matrix_to_list`). -/
def encodeMat (m : CMat) : JVal := .jarr (m.map (fun row => .jarr (row.map encodeCQ)))

/-- Serialize one `results` entry. -/
def encodeR : RVal → JVal
  | .rc z => encodeCQ z
  | .rr q => .jnum q
  | .rv v => encodeVec v
  | .rm m => encodeMat m
  | .rswap xa ya => .jobj [("x_after", encodeVec xa), ("y_after", encodeVec ya)]

/-- Serialize one test-case field. -/
def encodeF : FVal → JVal
  | .fstr s => .jstr s
  | .fnum q => .jnum q
  | .fc z => encodeCQ z
  | .fv v => encodeVec v
  | .fm m => encodeMat m
  | .fres rs => .jobj (rs.map (fun p => (p.1, encodeR p.2)))

/-- Serialize a test case as a JSON object. -/
def encodeCase (c : TestCase) : JVal := .jobj (c.fields.map (fun p => (p.1, encodeF p.2)))

/-- Serialize a whole suite: the `serialize(TestSuite) -> byte-stream` side of the
Fixture Serializer contract (`save_test_data`, generator lines 299-303). -/
def encodeSuite (s : TestSuite) : JVal :=
  .jobj [("level1", .jarr (s.level1.map encodeCase)),
         ("level2", .jarr (s.level2.map encodeCase)),
         ("level3", .jarr (s.level3.map encodeCase))]

/-- Decode a complex scalar from its exact serialized shape. -/
def decodeCQ : JVal → Option CQ
  | .jobj [(k1, .jnum r), (k2, .jnum i)] =>
    if k1 == "real" && k2 == "imag" then some ⟨r, i⟩ else none
  | _ => none

/-- Decode a list of serialized complex scalars. -/
def decodeVecL : List JVal → Option CVec
  | [] => some []
  | j :: r =>
    match decodeCQ j, decodeVecL r with
    | some z, some v => some (z :: v)
    | _, _ => none

/-- Decode a serialized vector. -/
def decodeVec : JVal → Option CVec
  | .jarr l => decodeVecL l
  | _ => none

/-- Decode a list of serialized matrix rows. -/
def decodeMatL : List JVal → Option CMat
  | [] => some []
  | .jarr r :: rest =>
    match decodeVecL r, decodeMatL rest with
    | some row, some rows => some (row :: rows)
    | _, _ => none
  | _ => none

/-- Decode one `results` entry, discriminating on the serialized shape. -/
def decodeR : JVal → Option RVal
  | .jnum q => some (.rr q)
  | .jarr [] => some (.rv [])
  | .jarr (.jobj f :: rest) => (decodeVecL (.jobj f :: rest)).map .rv
  | .jarr (.jarr r :: rest) => (decodeMatL (.jarr r :: rest)).map .rm
  | .jobj l =>
    match decodeCQ (.jobj l) with
    | some z => some (.rc z)
    | none =>
      match l with
      | [("x_after", ja), ("y_after", jb)] =>
        match decodeVec ja, decodeVec jb with
        | some a, some b => some (.rswap a b)
        | _, _ => none
      | _ => none
  | _ => none

/-- Decode a serialized `results` dictionary. -/
def decodeResL : List (String × JVal) → Option (List (String × RVal))
  | [] => some []
  | (k, j) :: rest =>
    match decodeR j, decodeResL rest with
    | some r, some rs => some ((k, r) :: rs)
    | _, _ => none

/-- Decode one test-case field, discriminating on the serialized shape. -/
def decodeF : JVal → Option FVal
  | .jstr s => some (.fstr s)
  | .jnum q => some (.fnum q)
  | .jarr [] => some (.fv [])
  | .jarr (.jobj f :: rest) => (decodeVecL (.jobj f :: rest)).map .fv
  | .jarr (.jarr r :: rest) => (decodeMatL (.jarr r :: rest)).map .fm
  | .jobj l =>
    match decodeCQ (.jobj l) with
    | some z => some (.fc z)
    | none => (decodeResL l).map .fres
  | _ => none

/-- Decode the field list of a test case. -/
def decodeFieldsL : List (String × JVal) → Option (List (String × FVal))
  | [] => some []
  | (k, j) :: rest =>
    match decodeF j, decodeFieldsL rest with
    | some f, some fs => some ((k, f) :: fs)
    | _, _ => none

/-- Decode a serialized test case. -/
def decodeCase : JVal → Option TestCase
  | .jobj l => (decodeFieldsL l).map TestCase.mk
  | _ => none

/-- Decode a list of serialized test cases. -/
def decodeCaseL : List JVal → Option (List TestCase)
  | [] => some []
  | j :: rest =>
    match decodeCase j, decodeCaseL rest with
    | some c, some cs => some (c :: cs)
    | _, _ => none

/-- Deserialize a whole suite: the `deserialize(byte-stream) -> TestSuite` side of
the Fixture Serializer contract. Modelled from the spec: the repository only
writes fixtures (`json.dump` in `save_test_data`); the inverse direction is
specified by §4.4's round-trip law but has no implementation under `src/`. -/
def decodeSuite : JVal → Option TestSuite
  | .jobj [("level1", .jarr a), ("level2", .jarr b), ("level3", .jarr c)] =>
    match decodeCaseL a, decodeCaseL b, decodeCaseL c with
    | some l1, some l2, some l3 => some ⟨l1, l2, l3⟩
    | _, _, _ => none
  | _ => none

/-- Does a `results` list have exactly the serialized shape of a complex scalar
(two numeric entries keyed `real` and `imag`)? Such a dictionary would be
indistinguishable from an encoded complex value on the wire. -/
def isRealImagRes : List (String × RVal) → Bool
  | [(k1, .rr _), (k2, .rr _)] => k1 == "real" && k2 == "imag"
  | _ => false

/-- Representable `results` values: everything except the empty matrix, whose
serialized form collides with the empty vector. -/
def RVal.ok : RVal → Bool
  | .rm [] => false
  | _ => true

/-- Representable field values. -/
def FVal.ok : FVal → Bool
  | .fm [] => false
  | .fres rs => rs.all (fun p => p.2.ok) && !isRealImagRes rs
  | _ => true

/-- Representable test cases. -/
def caseOk (c : TestCase) : Bool := c.fields.all (fun p => p.2.ok)

/-- Representable test suites: those whose serialized form is unambiguous
(no empty matrices, no `results` dictionary shaped exactly like a complex
scalar). Every suite built by the generator is representable. -/
def Representable (s : TestSuite) : Bool :=
  s.level1.all caseOk && s.level2.all caseOk && s.level3.all caseOk

mutual

/-- Deterministic textual rendering of a JSON value (the byte stream written by
`json.dump`; whitespace conventions abstracted). -/
def render : JVal → String
  | .jnum q => toString q
  | .jstr s => "\"" ++ s ++ "\""
  | .jarr l => "[" ++ renderArr l ++ "]"
  | .jobj l => "\x7b" ++ renderObj l ++ "\x7d"

/-- Render the elements of a JSON array. -/
def renderArr : List JVal → String
  | [] => ""
  | [j] => render j
  | j :: rest => render j ++ ", " ++ renderArr rest

/-- Render the fields of a JSON object. -/
def renderObj : List (String × JVal) → String
  | [] => ""
  | [(k, j)] => "\"" ++ k ++ "\": " ++ render j
  | (k, j) :: rest => "\"" ++ k ++ "\": " ++ render j ++ ", " ++ renderObj rest

end

/-- Modelled from the spec: numpy's seeded Mersenne-Twister normal-draw stream.
The only property the claims depend on is that every draw is a deterministic
function of the seed and the draw index; the concrete mixing formula is a
stand-in for the external PRNG. -/
def npRandn (seed : ℕ) (i : ℕ) : ℚ :=
  (((seed + 1) * 2654435761 + (i + 1) * 40503) % 8191 : ℕ) / 1000 - 4

/-- The `np.random.seed(42)` call in `ComplexBLASTestGenerator.__init__`
(generator lines 27-30): whatever the ambient process-wide RNG state was, the
constructor replaces it with the state determined by the fixed seed `42`. -/
def np_random_seed (_ambient : ℕ) : ℕ := 42

/-- A pseudo-random draw stream. -/
abbrev Rng := ℕ → ℚ

/-- Draw a complex vector `np.random.randn(n) + 1j * np.random.randn(n)`:
`n` real parts followed by `n` imaginary parts, starting at stream index `k`.
Returns the vector and the next stream index. -/
def randnV (g : Rng) (k n : ℕ) : CVec × ℕ :=
  ((List.range n).map (fun j => CQ.mk (g (k + j)) (g (k + n + j))), k + 2 * n)

/-- Draw a complex `m × n` matrix `np.random.randn(m, n) + 1j * np.random.randn(m, n)`:
`m * n` real parts row-major, then `m * n` imaginary parts. -/
def randnM (g : Rng) (k m n : ℕ) : CMat × ℕ :=
  ((List.range m).map (fun i =>
    (List.range n).map (fun j => CQ.mk (g (k + i * n + j)) (g (k + m * n + i * n + j)))),
   k + 2 * (m * n))

/-- One size-`n` Level 1 test case (generator lines 40-89). -/
def level1Case (g : Rng) (k n : ℕ) : TestCase × ℕ :=
  let (x, k1) := randnV g k n
  let (y, k2) := randnV g k1 n
  let alpha : CQ := ⟨5/2, -3/2⟩
  (⟨[("size", .fnum n),
     ("x", .fv x),
     ("y", .fv y),
     ("alpha", .fc alpha),
     ("results", .fres
       [("zdotu", .rc (zdotu x y)),
        ("zdotc", .rc (zdotc x y)),
        ("dznrm2", .rr (dznrm2 x)),
        ("dzasum", .rr (dzasum x)),
        ("zscal", .rv (zscal alpha x)),
        ("zaxpy", .rv (zaxpy alpha x y)),
        ("zcopy", .rv x),
        ("zswap", .rswap y x)])]⟩, k2)

/-- Hand-authored Level 1 edge cases (`generate_special_cases_level1`). -/
def generate_special_cases_level1 : List TestCase :=
  let xr : CVec := [⟨1, 0⟩, ⟨2, 0⟩, ⟨3, 0⟩]
  let yr : CVec := [⟨4, 0⟩, ⟨5, 0⟩, ⟨6, 0⟩]
  let xi : CVec := [⟨0, 1⟩, ⟨0, 2⟩, ⟨0, 3⟩]
  let yi : CVec := [⟨0, 4⟩, ⟨0, 5⟩, ⟨0, 6⟩]
  let xu : CVec := [⟨3/5, 4/5⟩]
  [⟨[("name", .fstr "pure_real"),
     ("size", .fnum 3),
     ("x", .fv xr),
     ("y", .fv yr),
     ("results", .fres
       [("zdotu", .rc (zdotu xr yr)),
        ("zdotc", .rc (zdotc xr yr)),
        ("dznrm2", .rr (dznrm2 xr))])]⟩,
   ⟨[("name", .fstr "pure_imaginary"),
     ("size", .fnum 3),
     ("x", .fv xi),
     ("y", .fv yi),
     ("results", .fres
       [("zdotu", .rc (zdotu xi yi)),
        ("zdotc", .rc (zdotc xi yi)),
        ("dznrm2", .rr (dznrm2 xi))])]⟩,
   ⟨[("name", .fstr "unit_norm"),
     ("size", .fnum 1),
     ("x", .fv xu),
     ("results", .fres [("dznrm2", .rr (dznrm2 xu))])]⟩]

/-- `generate_level1_tests`: random cases of sizes 2, 3, 5, 10 followed by the
special cases. -/
def generate_level1_tests (g : Rng) (k : ℕ) : List TestCase × ℕ :=
  let (c1, k1) := level1Case g k 2
  let (c2, k2) := level1Case g k1 3
  let (c3, k3) := level1Case g k2 5
  let (c4, k4) := level1Case g k3 10
  ([c1, c2, c3, c4] ++ generate_special_cases_level1, k4)

/-- One `(m, n)` Level 2 test case (generator lines 153-197): `zgemv` always,
plus the Hermitian, triangular, and solve fixtures when the matrix is square. -/
def level2Case (g : Rng) (k m n : ℕ) : TestCase × ℕ :=
  let pA := randnM g k m n
  let A := pA.1
  let px := randnV g pA.2 n
  let x := px.1
  let py := randnV g px.2 m
  let y := py.1
  let k3 := py.2
  let alpha : CQ := ⟨3/2, 1/2⟩
  let beta : CQ := ⟨1/2, -1/2⟩
  let gemv := zgemv alpha A x beta y
  if m = n then
    let H := hermitize A
    let zhemv := zgemv alpha H x beta y
    let U := triu A
    let ztrmv := matvec U x
    let pb := randnV g k3 n
    let b := pb.1
    let k4 := pb.2
    let ztrsv := (triangular_solve U b).getD []
    (⟨[("m", .fnum m),
       ("n", .fnum n),
       ("A", .fm A),
       ("x", .fv x),
       ("y", .fv y),
       ("alpha", .fc alpha),
       ("beta", .fc beta),
       ("results", .fres
         [("zgemv", .rv gemv),
          ("zhemv", .rv zhemv),
          ("ztrmv", .rv ztrmv),
          ("ztrsv", .rv ztrsv)]),
       ("H", .fm H),
       ("U", .fm U),
       ("b", .fv b)]⟩, k4)
  else
    (⟨[("m", .fnum m),
       ("n", .fnum n),
       ("A", .fm A),
       ("x", .fv x),
       ("y", .fv y),
       ("alpha", .fc alpha),
       ("beta", .fc beta),
       ("results", .fres [("zgemv", .rv gemv)])]⟩, k3)

/-- `generate_rank1_update_tests` (generator lines 205-244). -/
def generate_rank1_update_tests (g : Rng) (k : ℕ) : List TestCase × ℕ :=
  let pA := randnM g k 3 3
  let A := pA.1
  let px := randnV g pA.2 3
  let x := px.1
  let py := randnV g px.2 3
  let y := py.1
  let k3 := py.2
  let alpha : CQ := ⟨2, 1⟩
  let gerc := maddM A (smulCM alpha (outer x (y.map cconj)))
  let geru := maddM A (smulCM alpha (outer x y))
  let H := hermitize A
  let her := maddM H (smulQM alpha.re (outer x (x.map cconj)))
  ([⟨[("name", .fstr "rank1_updates"),
      ("m", .fnum 3),
      ("n", .fnum 3),
      ("A", .fm A),
      ("H", .fm H),
      ("x", .fv x),
      ("y", .fv y),
      ("alpha", .fc alpha),
      ("alpha_real", .fnum alpha.re),
      ("results", .fres
        [("zgerc", .rm gerc),
         ("zgeru", .rm geru),
         ("zher", .rm her)])]⟩], k3)

/-- `generate_level2_tests`: sizes (2,2), (3,3), (4,3), (3,4), then the rank-1
update cases. -/
def generate_level2_tests (g : Rng) (k : ℕ) : List TestCase × ℕ :=
  let p1 := level2Case g k 2 2
  let p2 := level2Case g p1.2 3 3
  let p3 := level2Case g p2.2 4 3
  let p4 := level2Case g p3.2 3 4
  let r1 := generate_rank1_update_tests g p4.2
  (p1.1 :: p2.1 :: p3.1 :: p4.1 :: r1.1, r1.2)

/-- One `(m, k, n)` Level 3 test case (generator lines 255-295). -/
def level3Case (g : Rng) (kk m kdim n : ℕ) : TestCase × ℕ :=
  let (A, k1) := randnM g kk m kdim
  let (B, k2) := randnM g k1 kdim n
  let (C, k3) := randnM g k2 m n
  let alpha : CQ := ⟨2, -1⟩
  let beta : CQ := ⟨1, 1/2⟩
  let gemm := maddM (smulCM alpha (matmul A B)) (smulCM beta C)
  if m = n ∧ n = kdim then
    let H := hermitize A
    let zhemm := maddM (smulCM alpha (matmul H B)) (smulCM beta C)
    let Cherm := hermitize C
    let zherk := maddM (smulQM alpha.re (matmul A (conjT A))) (smulQM beta.re Cherm)
    (⟨[("m", .fnum m),
       ("k", .fnum kdim),
       ("n", .fnum n),
       ("A", .fm A),
       ("B", .fm B),
       ("C", .fm C),
       ("alpha", .fc alpha),
       ("beta", .fc beta),
       ("results", .fres
         [("zgemm", .rm gemm),
          ("zhemm", .rm zhemm),
          ("zherk", .rm zherk)]),
       ("H", .fm H),
       ("C_herm", .fm Cherm)]⟩, k3)
  else
    (⟨[("m", .fnum m),
       ("k", .fnum kdim),
       ("n", .fnum n),
       ("A", .fm A),
       ("B", .fm B),
       ("C", .fm C),
       ("alpha", .fc alpha),
       ("beta", .fc beta),
       ("results", .fres [("zgemm", .rm gemm)])]⟩, k3)

/-- `generate_level3_tests`: sizes (2,3,4), (3,3,3), (4,2,3). -/
def generate_level3_tests (g : Rng) (k : ℕ) : List TestCase × ℕ :=
  let (c1, k1) := level3Case g k 2 3 4
  let (c2, k2) := level3Case g k1 3 3 3
  let (c3, k3) := level3Case g k2 4 2 3
  ([c1, c2, c3], k3)

/-- `generate_all_tests` (generator lines 305-310): build all three levels by
reading the single seeded draw stream in order. -/
def generate_all_tests (g : Rng) : TestSuite :=
  let (l1, k1) := generate_level1_tests g 0
  let (l2, k2) := generate_level2_tests g k1
  let (l3, _) := generate_level3_tests g k2
  ⟨l1, l2, l3⟩

/-- `save_test_data`: the serialized byte stream written to the fixture file. -/
def save_test_data (s : TestSuite) : String := render (encodeSuite s)

/-- One whole generation run, as a function of the ambient process-wide RNG
state: `__init__` seeds the stream (discarding the ambient state), then
`generate_all_tests` builds the suite and `save_test_data` serializes it. -/
def run_generation (ambient : ℕ) : TestSuite × String :=
  let g := npRandn (np_random_seed ambient)
  let s := generate_all_tests g
  (s, save_test_data s)

/-- A small concrete test suite, shaped like the generator's output, used to
exercise the serializer on an explicit value. -/
def sampleSuite : TestSuite :=
  ⟨[⟨[("name", .fstr "pure_real"),
      ("size", .fnum 3),
      ("x", .fv [⟨1, 0⟩, ⟨2, 0⟩]),
      ("results", .fres [("zdotu", .rc ⟨3, 4⟩), ("dznrm2", .rr 5),
                         ("zswap", .rswap [⟨1, 0⟩] [⟨0, 1⟩])])]⟩],
   [⟨[("m", .fnum 2),
      ("U", .fm [[⟨1, 0⟩, ⟨2, 0⟩], [⟨0, 0⟩, ⟨3, 0⟩]]),
      ("results", .fres [("zgemv", .rv [⟨1, 1⟩])])]⟩],
   []⟩

/-- Decimal digit test, the regex class `\d`. -/
def isDigitC (c : Char) : Bool := '0' ≤ c && c ≤ '9'

/-- Whitespace test, the regex class `\s` and Python's `str.strip`. -/
def isSpaceC (c : Char) : Bool :=
  c = ' ' || c = '\t' || c = '\n' || c = '\r' || c = '\x0b' || c = '\x0c'

/-- Numeric value of a digit character. -/
def digitVal (c : Char) : ℚ := ((c.toNat - 48 : ℕ) : ℚ)

/-- Value of a digit string read left to right. -/
def digitsVal (ds : List Char) : ℚ := ds.foldl (fun a c => 10 * a + digitVal c) 0

/-- Value of a digit string as a natural number (used for exponents). -/
def digitsNat (ds : List Char) : ℕ := ds.foldl (fun a c => 10 * a + (c.toNat - 48)) 0

/-- Value of the decimal token `<ds>.<fs>` (integer digits, fraction digits). -/
def decVal (ds fs : List Char) : ℚ := digitsVal ds + digitsVal fs / 10 ^ fs.length

/-- Optional leading sign `[+-]?`: returns whether the value is negated and the
rest of the input. -/
def matchSignB (s : List Char) : Bool × List Char :=
  match s with
  | '+' :: r => (false, r)
  | '-' :: r => (true, r)
  | _ => (false, s)

/-- Greedy match of the regex fragment `\d+\.?\d*`: at least one digit, an
optional dot, then more digits. Returns the token's value and the rest. -/
def matchUDec (s : List Char) : Option (ℚ × List Char) :=
  let ds := s.takeWhile isDigitC
  let r1 := s.dropWhile isDigitC
  if ds.isEmpty then none
  else
    match r1 with
    | '.' :: r2 => some (decVal ds (r2.takeWhile isDigitC), r2.dropWhile isDigitC)
    | _ => some (digitsVal ds, r1)

/-- The anchored-prefix match of the regex
`([+-]?\d+\.?\d*)\s*([+-])\s*(\d+\.?\d*)\s*[iⅈ]` used by `parse_complex`
(`validate_complex_blas.py` line 24). `re.match` anchors only at the start of
the string, so the unconsumed suffix is returned and ignored by the caller.
The pattern is deterministic (no backtracking can change the outcome), so the
greedy left-to-right scan is faithful. -/
def regexMatchComplex (s : List Char) : Option (ℚ × ℚ × List Char) :=
  let (neg1, s1) := matchSignB s
  match matchUDec s1 with
  | none => none
  | some (v1, r1) =>
    match r1.dropWhile isSpaceC with
    | c :: r3 =>
      if c = '+' || c = '-' then
        match matchUDec (r3.dropWhile isSpaceC) with
        | none => none
        | some (v2, r5) =>
          match r5.dropWhile isSpaceC with
          | gl :: rest =>
            if gl = 'i' || gl = 'ⅈ' then
              some ((if neg1 then -v1 else v1), (if c = '-' then -v2 else v2), rest)
            else none
          | [] => none
      else none
    | [] => none

/-- Mantissa of a Python float literal: `\d+(\.\d*)?` or `\.\d+`. -/
def matchMantissa (s : List Char) : Option (ℚ × List Char) :=
  let ds := s.takeWhile isDigitC
  let r1 := s.dropWhile isDigitC
  if ds.isEmpty then
    match s with
    | '.' :: r2 =>
      let fs := r2.takeWhile isDigitC
      if fs.isEmpty then none
      else some (digitsVal fs / 10 ^ fs.length, r2.dropWhile isDigitC)
    | _ => none
  else
    match r1 with
    | '.' :: r2 => some (decVal ds (r2.takeWhile isDigitC), r2.dropWhile isDigitC)
    | _ => some (digitsVal ds, r1)

/-- Exponent part of a Python float literal: `[eE][+-]?\d+`. -/
def matchExp (s : List Char) : Option (ℤ × List Char) :=
  match s with
  | c :: r1 =>
    if c = 'e' || c = 'E' then
      let (neg, r2) := matchSignB r1
      let ds := r2.takeWhile isDigitC
      if ds.isEmpty then none
      else some ((if neg then -(digitsNat ds : ℤ) else (digitsNat ds : ℤ)),
                 r2.dropWhile isDigitC)
    else none
  | [] => none

/-- Acceptance and value of Python's `float(s)` on an already-stripped string,
modelled for decimal literals with optional sign, fraction, and exponent (the
`inf`/`nan` spellings and digit-group underscores are outside the model). The
whole input must be consumed. -/
def pyFloatVal (s : List Char) : Option ℚ :=
  let (neg, s1) := matchSignB s
  match matchMantissa s1 with
  | none => none
  | some (m, r) =>
    let mv := if neg then -m else m
    match r with
    | [] => some mv
    | _ =>
      match matchExp r with
      | some (e, []) => some (mv * (10 : ℚ) ^ e)
      | _ => none

/-- Python's `str.strip()`: drop whitespace from both ends. -/
def pystrip (s : List Char) : List Char :=
  ((s.dropWhile isSpaceC).reverse.dropWhile isSpaceC).reverse

/-- `parse_complex` (`validate_complex_blas.py` lines 18-35): strip the input,
try the anchored complex regex (ignoring any unconsumed suffix), then fall back
to `float(s)`; `none` models the raised `ValueError` (the spec's `ParseError`). -/
def parse_complex (s : String) : Option CQ :=
  let t := pystrip s.toList
  match regexMatchComplex t with
  | some (re, im, _) => some ⟨re, im⟩
  | none =>
    match pyFloatVal t with
    | some v => some ⟨v, 0⟩
    | none => none

/-- Does the whole (stripped) string have the affine complex form, i.e. does the
complex regex consume the entire input? -/
def affineComplexFull (s : List Char) : Bool :=
  match regexMatchComplex s with
  | some (_, _, rest) => rest.isEmpty
  | none => false

/-- Is the whole (stripped) string a plain real-number literal? -/
def isRealLiteral (s : List Char) : Bool := (pyFloatVal s).isSome

/-- All characters of the list are decimal digits. -/
def allDigits (l : List Char) : Bool := l.all isDigitC

/-- Render a decimal token: integer digits, then an optional dot with fraction
digits (the regex capture `\d+\.?\d*`). -/
def decTok (ds : List Char) (fs : Option (List Char)) : List Char :=
  match fs with
  | none => ds
  | some f => ds ++ '.' :: f

/-- Value denoted by a decimal token. -/
def decTokVal (ds : List Char) (fs : Option (List Char)) : ℚ :=
  match fs with
  | none => digitsVal ds
  | some f => decVal ds f

/-- The five scenario outcomes collected in the `results` dictionary of
`generate_test_summary` (`validate_complex_blas.py` lines 198-204). -/
structure ScenarioResults where
  zdotu_passed : Bool
  zdotc_passed : Bool
  dznrm2_passed : Bool
  dzasum_passed : Bool
  level2_passed : Bool
deriving DecidableEq, Repr

/-- `generate_test_summary`'s aggregate `all(results.values())`
(`validate_complex_blas.py` line 212). -/
def generate_test_summary (r : ScenarioResults) : Bool :=
  r.zdotu_passed && r.zdotc_passed && r.dznrm2_passed && r.dzasum_passed && r.level2_passed

/-- The process exit code chosen by `main`: `sys.exit(0 if all_passed else 1)`
(`validate_complex_blas.py` line 235). -/
def main_exit (r : ScenarioResults) : ℕ :=
  if generate_test_summary r then 0 else 1

/-- `validate_level2_operations` (`validate_complex_blas.py` lines 162-190):
computes the `zgemv` and `zhemv` demonstration values, prints them, and returns
`True` without comparing anything against a tolerance. -/
def validate_level2_operations : Bool :=
  let A : CMat := [[⟨1, 1⟩, ⟨2, 0⟩], [⟨3, 0⟩, ⟨4, 1⟩]]
  let x : CVec := [⟨1, 1⟩, ⟨2, 0⟩]
  let y : CVec := [⟨0, 0⟩, ⟨0, 0⟩]
  let _gemv_demo := zgemv ⟨1, 0⟩ A x ⟨0, 0⟩ y
  let H : CMat := [[⟨2, 0⟩, ⟨1, -1⟩], [⟨1, 1⟩, ⟨3, 0⟩]]
  let _hemv_demo := matvec H x
  true

/-! ## Theorems -/

@[simp] theorem CQ.zero_re : (0 : CQ).re = 0 := rfl

@[simp] theorem CQ.zero_im : (0 : CQ).im = 0 := rfl

@[simp] theorem CQ.one_re : (1 : CQ).re = 1 := rfl

@[simp] theorem CQ.one_im : (1 : CQ).im = 0 := rfl

@[simp] theorem CQ.add_re (a b : CQ) : (a + b).re = a.re + b.re := rfl

@[simp] theorem CQ.add_im (a b : CQ) : (a + b).im = a.im + b.im := rfl

@[simp] theorem CQ.neg_re (a : CQ) : (-a).re = -a.re := rfl

@[simp] theorem CQ.neg_im (a : CQ) : (-a).im = -a.im := rfl

@[simp] theorem CQ.sub_re (a b : CQ) : (a - b).re = a.re - b.re := rfl

@[simp] theorem CQ.sub_im (a b : CQ) : (a - b).im = a.im - b.im := rfl

@[simp] theorem CQ.mul_re (a b : CQ) : (a * b).re = a.re * b.re - a.im * b.im := rfl

@[simp] theorem CQ.mul_im (a b : CQ) : (a * b).im = a.re * b.im + a.im * b.re := rfl

theorem CQ.ext2 {a b : CQ} (h1 : a.re = b.re) (h2 : a.im = b.im) : a = b := by
  cases a; cases b; simp_all

theorem CQ.ext_iff2 {a b : CQ} : a = b ↔ a.re = b.re ∧ a.im = b.im := by
  constructor
  · rintro rfl; exact ⟨rfl, rfl⟩
  · rintro ⟨h1, h2⟩; exact CQ.ext2 h1 h2

/-- C1: for every fixed seed value, two generation runs produce byte-identical
fixture files. A generation run is a function of the ambient process-wide RNG
state only; since `__init__` re-seeds with the fixed seed 42, any two runs
produce the same `TestSuite` and the same serialized byte stream. -/
theorem c1_generation_deterministic (ambient1 ambient2 : ℕ) :
    run_generation ambient1 = run_generation ambient2 := rfl

/-- C3: a compared actual/expected pair passes the harness's check if and only
if the complex modulus of the difference is at most the absolute tolerance
`DEFAULT_TOL = 1e-10`; the relative-tolerance component is zero, so the bound
is not scaled by the magnitude of the expected value. -/
theorem c3_tolerance_absolute (actual expected : CQ) :
    comparison_passes actual expected ↔
      Real.sqrt ((cmodSq (actual - expected) : ℚ) : ℝ) ≤ ((DEFAULT_TOL : ℚ) : ℝ) := by
  simp [comparison_passes, np_allclose]

/-- C4: `dzasum` sums the absolute values of the real parts and of the
imaginary parts separately; on `[3+4i, -1+0i]` it yields `8`, which differs
from the sum of complex moduli (`5 + 1 = 6`). -/
theorem c4_dzasum_componentwise :
    (∀ x : CVec, dzasum x = (x.map (fun z => |z.re| + |z.im|)).sum) ∧
    dzasum [⟨3, 4⟩, ⟨-1, 0⟩] = 8 ∧
    Real.sqrt ((cmodSq ⟨3, 4⟩ : ℚ) : ℝ) + Real.sqrt ((cmodSq ⟨-1, 0⟩ : ℚ) : ℝ) ≠
      ((dzasum [⟨3, 4⟩, ⟨-1, 0⟩] : ℚ) : ℝ) := by
  have hsum : ∀ x : CVec, dzasum x = (x.map (fun z => |z.re| + |z.im|)).sum := by
    intro x
    induction x with
    | nil => simp [dzasum]
    | cons z xs ih =>
      simp only [dzasum, List.map_cons, List.sum_cons] at ih ⊢
      linarith
  have hval : dzasum [(⟨3, 4⟩ : CQ), ⟨-1, 0⟩] = 8 := by norm_num [dzasum]
  refine ⟨hsum, hval, ?_⟩
  have h1 : (cmodSq ⟨3, 4⟩ : ℚ) = 25 := by norm_num [cmodSq]
  have h2 : (cmodSq ⟨-1, 0⟩ : ℚ) = 1 := by norm_num [cmodSq]
  rw [h1, h2, hval]
  have h25 : Real.sqrt ((25 : ℚ) : ℝ) = 5 := by
    rw [show ((25 : ℚ) : ℝ) = 5 ^ 2 by norm_num]
    exact Real.sqrt_sq (by norm_num)
  have hone : Real.sqrt ((1 : ℚ) : ℝ) = 1 := by
    rw [show ((1 : ℚ) : ℝ) = 1 by norm_num]
    exact Real.sqrt_one
  rw [h25, hone]
  norm_num

theorem decodeCQ_encodeCQ (z : CQ) : decodeCQ (encodeCQ z) = some z := by
  simp [encodeCQ, decodeCQ]

theorem decodeVecL_map_encodeCQ (v : CVec) : decodeVecL (v.map encodeCQ) = some v := by
  induction v with
  | nil => rfl
  | cons z zs ih => simp [decodeVecL, decodeCQ_encodeCQ, ih]

theorem decodeVec_encodeVec (v : CVec) : decodeVec (encodeVec v) = some v := by
  simp [encodeVec, decodeVec, decodeVecL_map_encodeCQ]

theorem decodeMatL_map_encode (m : CMat) :
    decodeMatL (m.map (fun row => JVal.jarr (row.map encodeCQ))) = some m := by
  induction m with
  | nil => rfl
  | cons r rs ih => simp [decodeMatL, decodeVecL_map_encodeCQ, ih]

theorem decodeCQ_jobj_res_none (rs : List (String × RVal))
    (h : isRealImagRes rs = false) :
    decodeCQ (.jobj (rs.map (fun p => (p.1, encodeR p.2)))) = none := by
  rcases rs with _ | ⟨⟨k1, v1⟩, _ | ⟨⟨k2, v2⟩, rest⟩⟩
  · rfl
  · cases v1 <;> simp [decodeCQ, encodeR, encodeCQ, encodeVec, encodeMat]
  · rcases rest with _ | ⟨p3, rest'⟩
    · cases v1 <;> cases v2 <;>
        simp_all [decodeCQ, encodeR, encodeCQ, encodeVec, encodeMat, isRealImagRes]
    · cases v1 <;> cases v2 <;>
        simp [decodeCQ, encodeR, encodeCQ, encodeVec, encodeMat]

theorem decodeR_encodeR (r : RVal) (h : r.ok = true) : decodeR (encodeR r) = some r := by
  cases r with
  | rc z => simp [encodeR, decodeR, encodeCQ, decodeCQ]
  | rr q => rfl
  | rv v =>
    cases v with
    | nil => rfl
    | cons z zs =>
      have hv := decodeVecL_map_encodeCQ (z :: zs)
      simp only [List.map_cons, encodeCQ] at hv
      simp [encodeR, encodeVec, encodeCQ, decodeR, hv]
  | rm m =>
    cases m with
    | nil => simp [RVal.ok] at h
    | cons r0 rows =>
      have hm := decodeMatL_map_encode (r0 :: rows)
      simp only [List.map_cons] at hm
      simp [encodeR, encodeMat, decodeR, hm]
  | rswap a b =>
    simp [encodeR, decodeR, encodeVec, decodeCQ, decodeVec, decodeVecL_map_encodeCQ]

theorem decodeResL_map_encodeR (rs : List (String × RVal))
    (h : rs.all (fun p => p.2.ok) = true) :
    decodeResL (rs.map (fun p => (p.1, encodeR p.2))) = some rs := by
  induction rs with
  | nil => rfl
  | cons p ps ih =>
    simp only [List.all_cons, Bool.and_eq_true] at h
    simp [decodeResL, decodeR_encodeR p.2 h.1, ih h.2]

theorem decodeF_encodeF (f : FVal) (h : f.ok = true) : decodeF (encodeF f) = some f := by
  cases f with
  | fstr s => rfl
  | fnum q => rfl
  | fc z => simp [encodeF, decodeF, encodeCQ, decodeCQ]
  | fv v =>
    cases v with
    | nil => rfl
    | cons z zs =>
      have hv := decodeVecL_map_encodeCQ (z :: zs)
      simp only [List.map_cons, encodeCQ] at hv
      simp [encodeF, encodeVec, encodeCQ, decodeF, hv]
  | fm m =>
    cases m with
    | nil => simp [FVal.ok] at h
    | cons r0 rows =>
      have hm := decodeMatL_map_encode (r0 :: rows)
      simp only [List.map_cons] at hm
      simp [encodeF, encodeMat, decodeF, hm]
  | fres rs =>
    simp only [FVal.ok, Bool.and_eq_true, Bool.not_eq_true'] at h
    simp [encodeF, decodeF, decodeCQ_jobj_res_none rs h.2,
      decodeResL_map_encodeR rs h.1]

theorem decodeFieldsL_map_encodeF (fs : List (String × FVal))
    (h : fs.all (fun p => p.2.ok) = true) :
    decodeFieldsL (fs.map (fun p => (p.1, encodeF p.2))) = some fs := by
  induction fs with
  | nil => rfl
  | cons p ps ih =>
    simp only [List.all_cons, Bool.and_eq_true] at h
    simp [decodeFieldsL, decodeF_encodeF p.2 h.1, ih h.2]

theorem decodeCase_encodeCase (c : TestCase) (h : caseOk c = true) :
    decodeCase (encodeCase c) = some c := by
  simp [encodeCase, decodeCase, decodeFieldsL_map_encodeF c.fields h]

theorem decodeCaseL_map_encodeCase (cs : List TestCase)
    (h : cs.all caseOk = true) :
    decodeCaseL (cs.map encodeCase) = some cs := by
  induction cs with
  | nil => rfl
  | cons c rest ih =>
    simp only [List.all_cons, Bool.and_eq_true] at h
    simp [decodeCaseL, decodeCase_encodeCase c h.1, ih h.2]

/-- C2: for every representable `TestSuite` (one whose serialized form is
unambiguous; every generator-produced suite is such), deserializing the
serialized form returns the suite field-for-field. -/
theorem c2_serializer_round_trip (s : TestSuite) (h : Representable s = true) :
    decodeSuite (encodeSuite s) = some s := by
  obtain ⟨l1, l2, l3⟩ := s
  simp only [Representable, Bool.and_eq_true] at h
  simp [encodeSuite, decodeSuite, decodeCaseL_map_encodeCase _ h.1.1,
    decodeCaseL_map_encodeCase _ h.1.2, decodeCaseL_map_encodeCase _ h.2]

/-- C2 witness: the round-trip law evaluated on a concrete representable
suite. -/
theorem c2_round_trip_witness :
    Representable sampleSuite = true ∧
    decodeSuite (encodeSuite sampleSuite) = some sampleSuite :=
  ⟨by decide, c2_serializer_round_trip sampleSuite (by decide)⟩

theorem rowZero_getD_zero (i : ℕ) (row : List CQ) : ∀ (j0 j : ℕ), j0 + j < i →
    (rowZero i j0 row).getD j 0 = 0 := by
  induction row with
  | nil => intro j0 j _; simp [rowZero]
  | cons z zs ih =>
    intro j0 j h
    cases j with
    | zero =>
      simp only [rowZero, List.getD_cons_zero]
      rw [if_neg]; omega
    | succ j' =>
      simp only [rowZero, List.getD_cons_succ]
      exact ih (j0 + 1) j' (by omega)

theorem triuFrom_getD (rows : CMat) : ∀ (i0 i : ℕ),
    (triuFrom i0 rows).getD i [] = rowZero (i0 + i) 0 (rows.getD i []) := by
  induction rows with
  | nil => intro i0 i; simp [triuFrom, rowZero]
  | cons r rs ih =>
    intro i0 i
    cases i with
    | zero => simp [triuFrom]
    | succ i' =>
      simp only [triuFrom, List.getD_cons_succ]
      rw [ih (i0 + 1) i']
      have harith : i0 + 1 + i' = i0 + (i' + 1) := by omega
      rw [harith]

theorem triu_strict_lower_zero (A : CMat) (i j : ℕ) (h : j < i) :
    ((triu A).getD i []).getD j 0 = 0 := by
  rw [triu, triuFrom_getD]
  exact rowZero_getD_zero (0 + i) _ 0 j (by omega)

/-- C6: every upper-triangular fixture `U` stored in a generated Level 2 test
case has the exact zero complex value at every entry whose row index exceeds
its column index, because `U` is the `np.triu` extraction of the base matrix. -/
theorem c6_triu_fixture_strict_lower_zero (g : Rng) (k : ℕ) (c : TestCase)
    (hc : c ∈ (generate_level2_tests g k).1) (U : CMat)
    (hU : ("U", FVal.fm U) ∈ c.fields) (i j : ℕ) (hij : j < i) :
    (U.getD i []).getD j 0 = 0 := by
  simp only [generate_level2_tests, List.mem_cons] at hc
  rcases hc with h | h | h | h | h
  · rw [h] at hU
    simp [level2Case] at hU
    rw [hU]
    exact triu_strict_lower_zero _ i j hij
  · rw [h] at hU
    simp [level2Case] at hU
    rw [hU]
    exact triu_strict_lower_zero _ i j hij
  · rw [h] at hU
    simp [level2Case] at hU
  · rw [h] at hU
    simp [level2Case] at hU
  · simp only [generate_rank1_update_tests, List.mem_cons, List.not_mem_nil,
      or_false] at h
    rw [h] at hU
    simp at hU

/-- C6 witness: the first generated Level 2 case (size 2×2, on the all-zero
draw stream) contains an upper-triangular fixture whose entry (1, 0) is the
zero complex value. -/
theorem c6_triu_fixture_witness :
    (0 : ℕ) < 1 ∧
    (((triu (randnM (fun _ => 0) 0 2 2).1).getD 1 []).getD 0 0 = 0) := by
  refine ⟨by omega, ?_⟩
  exact c6_triu_fixture_strict_lower_zero (fun _ => 0) 0
    (level2Case (fun _ => 0) 0 2 2).1 (List.mem_cons_self _ _)
    (triu (randnM (fun _ => 0) 0 2 2).1)
    (by simp [level2Case]) 1 0 (by omega)

theorem cmodSq_ne_zero (z : CQ) (h : z ≠ 0) : cmodSq z ≠ 0 := by
  obtain ⟨x, y⟩ := z
  intro hc
  simp only [cmodSq] at hc
  have hx : x = 0 := by nlinarith [sq_nonneg x, sq_nonneg y]
  have hy : y = 0 := by nlinarith [sq_nonneg x, sq_nonneg y]
  exact h (by rw [hx, hy]; rfl)

theorem mul_cinv_cancel (p : CQ) (hp : p ≠ 0) : p * cinv p = 1 := by
  have hs := cmodSq_ne_zero p hp
  obtain ⟨x, y⟩ := p
  simp only [cmodSq] at hs
  apply CQ.ext2
  · simp only [CQ.mul_re, CQ.one_re, cinv, cmodSq]
    field_simp
    ring
  · simp only [CQ.mul_im, CQ.one_im, cinv, cmodSq]
    field_simp
    ring

theorem mul_cdiv_cancel (a p : CQ) (hp : p ≠ 0) : p * cdiv a p = a := by
  have h1 : p * cdiv a p = (p * cinv p) * a := by rw [cdiv]; ring
  rw [h1, mul_cinv_cancel p hp, one_mul]

theorem zdotu_cons (a b : CQ) (as bs : CVec) :
    zdotu (a :: as) (b :: bs) = a * b + zdotu as bs := by
  simp [zdotu]

theorem getD_map_drop (rows : CMat) (i j : ℕ) :
    (((rows.map (fun r => r.drop 1)).getD i []).getD j 0) =
      ((rows.getD i []).getD (j + 1) 0) := by
  induction rows generalizing i with
  | nil => simp
  | cons r rs ih =>
    cases i with
    | zero =>
      simp only [List.map_cons, List.getD_cons_zero]
      cases r with
      | nil => simp
      | cons z zs => simp [List.getD_cons_succ]
    | succ i' =>
      simp only [List.map_cons, List.getD_cons_succ]
      exact ih i'

theorem triSolve_spec (n : ℕ) : ∀ (U : CMat) (b : CVec), U.length = n →
    (∀ row ∈ U, row.length = n) → b.length = n →
    ((strictLowerZero U → (∀ i, i < n → ((U.getD i []).getD i 0) ≠ 0) →
      ∃ x, triSolve n U b = some x ∧ x.length = n ∧ matvec U x = b) ∧
     ((∃ i, i < n ∧ ((U.getD i []).getD i 0) = 0) → triSolve n U b = none)) := by
  induction n with
  | zero =>
    intro U b hU hrows hb
    have hU0 : U = [] := List.length_eq_zero.mp hU
    have hb0 : b = [] := List.length_eq_zero.mp hb
    subst hU0; subst hb0
    constructor
    · intro _ _
      exact ⟨[], rfl, rfl, rfl⟩
    · rintro ⟨i, hi, _⟩; omega
  | succ n ih =>
    intro U b hU hrows hb
    obtain ⟨r0, rows, rfl⟩ : ∃ r0 rows, U = r0 :: rows := by
      cases U with
      | nil => simp at hU
      | cons a l => exact ⟨a, l, rfl⟩
    obtain ⟨b0, bs, rfl⟩ : ∃ b0 bs, b = b0 :: bs := by
      cases b with
      | nil => simp at hb
      | cons a l => exact ⟨a, l, rfl⟩
    have hr0len : r0.length = n + 1 := hrows r0 (List.mem_cons_self _ _)
    obtain ⟨p, r0t, rfl⟩ : ∃ p r0t, r0 = p :: r0t := by
      cases r0 with
      | nil => simp at hr0len
      | cons a l => exact ⟨a, l, rfl⟩
    have hrowslen : rows.length = n := by simpa using hU
    have hbslen : bs.length = n := by simpa using hb
    set subU := rows.map (fun r => r.drop 1) with hsubU
    have hsubUlen : subU.length = n := by simp [hsubU, hrowslen]
    have hsubrows : ∀ row ∈ subU, row.length = n := by
      intro row hrow
      rw [hsubU] at hrow
      obtain ⟨r, hr, rfl⟩ := List.mem_map.mp hrow
      have := hrows r (List.mem_cons_of_mem _ hr)
      simp [this]
    have IH := ih subU bs hsubUlen hsubrows hbslen
    constructor
    · intro hlow hdiag
      have hp : p ≠ 0 := by
        have := hdiag 0 (by omega)
        simpa using this
      have hsublow : strictLowerZero subU := by
        intro i j hij
        rw [hsubU, getD_map_drop]
        have hz := hlow (i + 1) (j + 1) (by omega)
        simpa using hz
      have hsubdiag : ∀ i, i < n → ((subU.getD i []).getD i 0) ≠ 0 := by
        intro i hin
        rw [hsubU, getD_map_drop]
        have := hdiag (i + 1) (by omega)
        simpa using this
      obtain ⟨xt, hsolve, hxtlen, hmv⟩ := IH.1 hsublow hsubdiag
      refine ⟨cdiv (b0 - zdotu r0t xt) p :: xt, ?_, by simp [hxtlen], ?_⟩
      · simp only [triSolve]
        rw [← hsubU, hsolve]
        simp [hp]
      · have hhead : zdotu (p :: r0t) (cdiv (b0 - zdotu r0t xt) p :: xt) = b0 := by
          rw [zdotu_cons, mul_cdiv_cancel _ p hp]
          ring
        have hcongr : rows.map (fun r => zdotu r (cdiv (b0 - zdotu r0t xt) p :: xt)) =
            rows.map (fun r => zdotu (r.drop 1) xt) := by
          apply List.map_congr_left
          intro r hr
          obtain ⟨i, hi, hgetr⟩ := List.mem_iff_getElem.mp hr
          obtain ⟨h0, rt, rfl⟩ : ∃ h0 rt, r = h0 :: rt := by
            have hrl := hrows r (List.mem_cons_of_mem _ hr)
            cases r with
            | nil => simp at hrl
            | cons a l => exact ⟨a, l, rfl⟩
          have hh0 : h0 = 0 := by
            have hz := hlow (i + 1) 0 (by omega)
            rw [List.getD_cons_succ] at hz
            rw [List.getD_eq_getElem _ _ (by omega : i < rows.length), hgetr] at hz
            simpa using hz
          simp [zdotu_cons, hh0]
        have htail : rows.map (fun r => zdotu r (cdiv (b0 - zdotu r0t xt) p :: xt)) = bs := by
          rw [hcongr]
          calc rows.map (fun r => zdotu (r.drop 1) xt)
              = (rows.map (fun r => r.drop 1)).map (fun row => zdotu row xt) := by
                rw [List.map_map]; rfl
            _ = bs := hmv
        simp only [matvec, List.map_cons]
        rw [hhead, htail]
    · rintro ⟨i, hi, hzero⟩
      cases i with
      | zero =>
        have hp0 : p = 0 := by simpa using hzero
        simp only [triSolve]
        rw [← hsubU]
        cases htS : triSolve n subU bs with
        | none => rfl
        | some xt => simp [hp0]
      | succ i' =>
        have hsub0 : ((subU.getD i' []).getD i' 0) = 0 := by
          rw [hsubU, getD_map_drop]
          simpa using hzero
        have hnone := IH.2 ⟨i', by omega, hsub0⟩
        simp only [triSolve]
        rw [← hsubU, hnone]

/-- C7: for every square upper-triangular `U` and right-hand side `b` of
matching size, `triangular_solve U b` returns an `x` with `U·x = b` whenever
every diagonal entry is nonzero, and fails (the `SingularMatrixError` outcome)
whenever some diagonal entry is the zero complex value. -/
theorem c7_triangular_solve (U : CMat) (b : CVec) (hsq : squareMat U)
    (hb : b.length = U.length) :
    (strictLowerZero U → (∀ i, i < U.length → ((U.getD i []).getD i 0) ≠ 0) →
      ∃ x, triangular_solve U b = some x ∧ matvec U x = b) ∧
    ((∃ i, i < U.length ∧ ((U.getD i []).getD i 0) = 0) →
      triangular_solve U b = none) := by
  have h := triSolve_spec U.length U b rfl hsq hb
  exact ⟨fun h1 h2 => (h.1 h1 h2).imp (fun x hx => ⟨hx.1, hx.2.2⟩), h.2⟩

/-- C7 witness: the solver applied to the concrete system
`[[1, 2], [0, 3]] · x = [5, 3]`, whose diagonal is nonzero. -/
theorem c7_triangular_solve_witness :
    squareMat [[(⟨1, 0⟩ : CQ), ⟨2, 0⟩], [⟨0, 0⟩, ⟨3, 0⟩]] ∧
    ∃ x, triangular_solve [[(⟨1, 0⟩ : CQ), ⟨2, 0⟩], [⟨0, 0⟩, ⟨3, 0⟩]]
          [⟨5, 0⟩, ⟨3, 0⟩] = some x ∧
      matvec [[(⟨1, 0⟩ : CQ), ⟨2, 0⟩], [⟨0, 0⟩, ⟨3, 0⟩]] x = [⟨5, 0⟩, ⟨3, 0⟩] := by
  have hsq : squareMat [[(⟨1, 0⟩ : CQ), ⟨2, 0⟩], [⟨0, 0⟩, ⟨3, 0⟩]] := by
    intro row hrow
    simp only [List.mem_cons, List.not_mem_nil, or_false] at hrow
    rcases hrow with rfl | rfl <;> rfl
  have hlow : strictLowerZero [[(⟨1, 0⟩ : CQ), ⟨2, 0⟩], [⟨0, 0⟩, ⟨3, 0⟩]] := by
    intro i j hij
    rcases i with _ | _ | i2
    · omega
    · have hj : j = 0 := by omega
      subst hj; rfl
    · have hrow : ([[(⟨1, 0⟩ : CQ), ⟨2, 0⟩], [⟨0, 0⟩, ⟨3, 0⟩]] : CMat).getD (i2 + 2) [] = [] := by
        apply List.getD_eq_default
        simp
      rw [hrow]
      simp
  have hdiag : ∀ i, i < ([[(⟨1, 0⟩ : CQ), ⟨2, 0⟩], [⟨0, 0⟩, ⟨3, 0⟩]] : CMat).length →
      ((([[(⟨1, 0⟩ : CQ), ⟨2, 0⟩], [⟨0, 0⟩, ⟨3, 0⟩]] : CMat).getD i []).getD i 0) ≠ 0 := by
    intro i hi
    simp only [List.length_cons, List.length_nil] at hi
    interval_cases i
    · show (⟨1, 0⟩ : CQ) ≠ 0
      simp [CQ.ext_iff2]
    · show (⟨3, 0⟩ : CQ) ≠ 0
      simp [CQ.ext_iff2]
  exact ⟨hsq, (c7_triangular_solve _ _ hsq rfl).1 hlow hdiag⟩

/-- C8 counterexample: on the inputs named by the claim, `x = [1+0i, 0+1i]` and
`y = [0+3i, 0+4i]`, the unconjugated dot product is `-4+3i`, not `-11+0i`. -/
theorem c8_zdotu_counterexample :
    zdotu [⟨1, 0⟩, ⟨0, 1⟩] [⟨0, 3⟩, ⟨0, 4⟩] = ⟨-4, 3⟩ ∧
    (⟨-4, 3⟩ : CQ) ≠ ⟨-11, 0⟩ := by
  constructor
  · apply CQ.ext2 <;> norm_num [zdotu]
  · intro h
    rw [CQ.mk.injEq] at h
    norm_num at h

/-- C8 (amended): the end-to-end scenario actually present in `validate_zdotu`
(`validate_complex_blas.py` line 58) uses `x = [0+1i, 0+2i]`, `y = [0+3i, 0+4i]`,
and for those inputs the unconjugated dot product equals `-11+0i`. -/
theorem c8_zdotu_scenario :
    zdotu [⟨0, 1⟩, ⟨0, 2⟩] [⟨0, 3⟩, ⟨0, 4⟩] = ⟨-11, 0⟩ := by
  apply CQ.ext2 <;> norm_num [zdotu]

/-- C9: the harness exit status is a single aggregate over the five scenario
outcomes: the process exits with code 0 exactly when every scenario passed, and
with code 1 in every other case. -/
theorem c9_exit_code_aggregate (r : ScenarioResults) :
    (main_exit r = 0 ↔
      (r.zdotu_passed = true ∧ r.zdotc_passed = true ∧ r.dznrm2_passed = true ∧
       r.dzasum_passed = true ∧ r.level2_passed = true)) ∧
    (main_exit r = 0 ∨ main_exit r = 1) := by
  obtain ⟨a, b, c, d, e⟩ := r
  cases a <;> cases b <;> cases c <;> cases d <;> cases e <;>
    simp [main_exit, generate_test_summary]

/-- C10: `validate_level2_operations` returns `True` unconditionally (it prints
computed values but performs no tolerance comparison), so with its result
plugged into the summary, the exit code is decided by the four Level 1
scenarios alone. -/
theorem c10_level2_scenario_vacuous :
    validate_level2_operations = true ∧
    ∀ a b c d : Bool,
      (main_exit ⟨a, b, c, d, validate_level2_operations⟩ = 0 ↔
        (a && b && c && d) = true) := by
  refine ⟨rfl, ?_⟩
  intro a b c d
  cases a <;> cases b <;> cases c <;> cases d <;>
    simp [main_exit, generate_test_summary, validate_level2_operations]

/-- C5 counterexample: `"1 + 2ix"` parses successfully (the regex is anchored
only at the start, so the trailing `x` is ignored), although the string neither
has the affine complex form in full nor is a plain real number — contradicting
the claim that such inputs fail with `ParseError`. -/
theorem c5_parse_complex_counterexample :
    (parse_complex "1 + 2ix").isSome = true ∧
    affineComplexFull (pystrip "1 + 2ix".toList) = false ∧
    isRealLiteral (pystrip "1 + 2ix".toList) = false :=
  ⟨rfl, rfl, rfl⟩

theorem digit_not_space (c : Char) (h : isDigitC c = true) : isSpaceC c = false := by
  by_contra hs
  rw [Bool.not_eq_false] at hs
  simp only [isSpaceC, Bool.or_eq_true, decide_eq_true_eq] at hs
  rcases hs with ((((rfl | rfl) | rfl) | rfl) | rfl) | rfl <;> exact absurd h (by decide)

theorem digit_not_plus (c : Char) (h : isDigitC c = true) : c ≠ '+' := by
  rintro rfl; exact absurd h (by decide)

theorem digit_not_minus (c : Char) (h : isDigitC c = true) : c ≠ '-' := by
  rintro rfl; exact absurd h (by decide)

theorem digit_not_dot (c : Char) (h : isDigitC c = true) : c ≠ '.' := by
  rintro rfl; exact absurd h (by decide)

theorem matchSignB_not_sign (s : List Char)
    (h : ∀ c, s.head? = some c → (c ≠ '+' ∧ c ≠ '-')) :
    matchSignB s = (false, s) := by
  cases s with
  | nil => rfl
  | cons c r =>
    obtain ⟨h1, h2⟩ := h c rfl
    rw [matchSignB.eq_def]
    split
    · simp_all
    · simp_all
    · rfl

theorem takeWhile_digits_append (a b : List Char) (ha : allDigits a = true)
    (hb : ∀ c, b.head? = some c → isDigitC c = false) :
    (a ++ b).takeWhile isDigitC = a ∧ (a ++ b).dropWhile isDigitC = b := by
  induction a with
  | nil =>
    cases b with
    | nil => exact ⟨rfl, rfl⟩
    | cons c r =>
      have := hb c rfl
      simp [List.takeWhile_cons, List.dropWhile_cons, this]
  | cons c a' ih =>
    simp only [allDigits, List.all_cons, Bool.and_eq_true] at ha
    have hih := ih ha.2
    simp [List.takeWhile_cons, List.dropWhile_cons, ha.1, hih.1, hih.2]

theorem matchUDec_on_tok (ds : List Char) (fs : Option (List Char)) (rest : List Char)
    (hds : allDigits ds = true) (hne : ds ≠ [])
    (hfs : allDigits (fs.getD []) = true)
    (hrest : ∀ c, rest.head? = some c → (isDigitC c = false ∧ c ≠ '.')) :
    matchUDec (decTok ds fs ++ rest) = some (decTokVal ds fs, rest) := by
  cases fs with
  | none =>
    have hspan := takeWhile_digits_append ds rest hds (fun c hc => (hrest c hc).1)
    simp only [decTok, decTokVal]
    rw [matchUDec]
    simp only [hspan.1, hspan.2]
    rw [if_neg (by simp [List.isEmpty_iff, hne])]
    cases rest with
    | nil => rfl
    | cons c r =>
      have hcne := (hrest c rfl).2
      split
      · simp_all
      · rfl
  | some f =>
    simp only [decTok, decTokVal]
    have h1 : (ds ++ '.' :: f) ++ rest = ds ++ ('.' :: (f ++ rest)) := by simp
    rw [h1]
    have hspan := takeWhile_digits_append ds ('.' :: (f ++ rest)) hds
      (fun c hc => by
        rw [List.head?_cons, Option.some.injEq] at hc
        subst hc; decide)
    rw [matchUDec]
    simp only [hspan.1, hspan.2]
    rw [if_neg (by simp [List.isEmpty_iff, hne])]
    have hspan2 := takeWhile_digits_append f rest (by simpa using hfs)
      (fun c hc => (hrest c hc).1)
    simp only [hspan2.1, hspan2.2]

theorem decTok_cons (d : Char) (ds : List Char) (fs : Option (List Char)) :
    ∃ tl, decTok (d :: ds) fs = d :: tl := by
  cases fs with
  | none => exact ⟨ds, rfl⟩
  | some f => exact ⟨ds ++ '.' :: f, rfl⟩

theorem pystrip_of_ends (t : List Char)
    (h1 : ∀ c, t.head? = some c → isSpaceC c = false)
    (h2 : ∀ c, t.getLast? = some c → isSpaceC c = false) :
    pystrip t = t := by
  have hd : t.dropWhile isSpaceC = t := by
    cases t with
    | nil => rfl
    | cons c r => simp [List.dropWhile_cons, h1 c rfl]
  have hrev : t.reverse.dropWhile isSpaceC = t.reverse := by
    cases hr : t.reverse with
    | nil => rfl
    | cons c r =>
      have : t.getLast? = some c := by
        rw [← List.head?_reverse, hr, List.head?_cons]
      simp [List.dropWhile_cons, h2 c this]
  rw [pystrip, hd, hrev, List.reverse_reverse]

theorem pystrip_of_nonspace (t : List Char) (h : ∀ c ∈ t, isSpaceC c = false) :
    pystrip t = t := by
  apply pystrip_of_ends
  · intro c hc
    cases t with
    | nil => simp at hc
    | cons a r =>
      rw [List.head?_cons, Option.some.injEq] at hc
      subst hc
      exact h _ (List.mem_cons_self _ _)
  · intro c hc
    rw [← List.head?_reverse] at hc
    cases hr : t.reverse with
    | nil => rw [hr] at hc; simp at hc
    | cons a r =>
      rw [hr, List.head?_cons, Option.some.injEq] at hc
      subst hc
      have ha : a ∈ t.reverse := by rw [hr]; exact List.mem_cons_self _ _
      exact h _ (List.mem_reverse.mp ha)

theorem matchMantissa_eq_matchUDec (s : List Char)
    (h : (s.takeWhile isDigitC).isEmpty = false) :
    matchMantissa s = matchUDec s := by
  simp only [matchMantissa, matchUDec, h, Bool.false_eq_true, if_false]

theorem regexMatchComplex_form (ds1 ds2 : List Char) (fs1 fs2 : Option (List Char))
    (sep : Char) (rest : List Char)
    (h1 : allDigits ds1 = true) (h2 : ds1 ≠ []) (h3 : allDigits (fs1.getD []) = true)
    (h4 : allDigits ds2 = true) (h5 : ds2 ≠ []) (h6 : allDigits (fs2.getD []) = true)
    (hsep : sep = '+' ∨ sep = '-') :
    regexMatchComplex
        (decTok ds1 fs1 ++ ' ' :: sep :: ' ' :: (decTok ds2 fs2 ++ 'i' :: rest)) =
      some (decTokVal ds1 fs1,
            if sep = '-' then -decTokVal ds2 fs2 else decTokVal ds2 fs2, rest) := by
  obtain ⟨d1, ds1', rfl⟩ : ∃ d t, ds1 = d :: t := by
    cases ds1 with
    | nil => exact absurd rfl h2
    | cons a b => exact ⟨a, b, rfl⟩
  have hd1 : isDigitC d1 = true := by
    simp only [allDigits, List.all_cons, Bool.and_eq_true] at h1
    exact h1.1
  obtain ⟨d2, ds2', rfl⟩ : ∃ d t, ds2 = d :: t := by
    cases ds2 with
    | nil => exact absurd rfl h5
    | cons a b => exact ⟨a, b, rfl⟩
  have hd2 : isDigitC d2 = true := by
    simp only [allDigits, List.all_cons, Bool.and_eq_true] at h4
    exact h4.1
  obtain ⟨tl1, htl1⟩ := decTok_cons d1 ds1' fs1
  obtain ⟨tl2, htl2⟩ := decTok_cons d2 ds2' fs2
  have hsign : matchSignB
      (decTok (d1 :: ds1') fs1 ++ ' ' :: sep :: ' ' :: (decTok (d2 :: ds2') fs2 ++ 'i' :: rest)) =
      (false, decTok (d1 :: ds1') fs1 ++ ' ' :: sep :: ' ' :: (decTok (d2 :: ds2') fs2 ++ 'i' :: rest)) := by
    apply matchSignB_not_sign
    rw [htl1]
    intro c hc
    simp only [List.cons_append, List.head?_cons, Option.some.injEq] at hc
    subst hc
    exact ⟨digit_not_plus _ hd1, digit_not_minus _ hd1⟩
  have hudec1 := matchUDec_on_tok (d1 :: ds1') fs1
    (' ' :: sep :: ' ' :: (decTok (d2 :: ds2') fs2 ++ 'i' :: rest)) h1 (by simp) h3
    (by intro c hc
        rw [List.head?_cons, Option.some.injEq] at hc
        subst hc
        exact ⟨by decide, by decide⟩)
  have hudec2 := matchUDec_on_tok (d2 :: ds2') fs2 ('i' :: rest) h4 (by simp) h6
    (by intro c hc
        rw [List.head?_cons, Option.some.injEq] at hc
        subst hc
        exact ⟨by decide, by decide⟩)
  have hdw2 : List.dropWhile isSpaceC (' ' :: (decTok (d2 :: ds2') fs2 ++ 'i' :: rest)) =
      decTok (d2 :: ds2') fs2 ++ 'i' :: rest := by
    rw [htl2]
    simp only [List.cons_append, List.dropWhile_cons,
      show isSpaceC ' ' = true from rfl, if_true,
      digit_not_space _ hd2, Bool.false_eq_true, if_false]
  rcases hsep with rfl | rfl
  · simp only [regexMatchComplex, hsign, hudec1, List.dropWhile_cons,
      show isSpaceC ' ' = true from rfl, if_true,
      show isSpaceC '+' = false from rfl, Bool.false_eq_true, if_false,
      show (decide ('+' = '+') || decide ('+' = '-')) = true from rfl, hdw2, hudec2,
      show isSpaceC 'i' = false from rfl,
      show (decide ('i' = 'i') || decide ('i' = 'ⅈ')) = true from rfl]
    simp
  · simp only [regexMatchComplex, hsign, hudec1, List.dropWhile_cons,
      show isSpaceC ' ' = true from rfl, if_true,
      show isSpaceC '-' = false from rfl, Bool.false_eq_true, if_false,
      show (decide ('-' = '+') || decide ('-' = '-')) = true from rfl, hdw2, hudec2,
      show isSpaceC 'i' = false from rfl,
      show (decide ('i' = 'i') || decide ('i' = 'ⅈ')) = true from rfl]
    simp

theorem decTok_append_head (ds : List Char) (fs : Option (List Char)) (rest : List Char)
    (h1 : allDigits ds = true) (h2 : ds ≠ []) :
    ∀ c, (decTok ds fs ++ rest).head? = some c → isDigitC c = true := by
  obtain ⟨d, ds', rfl⟩ : ∃ d t, ds = d :: t := by
    cases ds with
    | nil => exact absurd rfl h2
    | cons a b => exact ⟨a, b, rfl⟩
  obtain ⟨tl, htl⟩ := decTok_cons d ds' fs
  rw [htl]
  intro c hc
  simp only [List.cons_append, List.head?_cons, Option.some.injEq] at hc
  subst hc
  simp only [allDigits, List.all_cons, Bool.and_eq_true] at h1
  exact h1.1

/-- C5 (amended): `parse_complex` accepts the forms `<real> + <imag>i` and
`<real> - <imag>i` (with `<real>` and `<imag>` plain decimal literals matched by
the regex's `\d+\.?\d*` classes) and bare decimal reals (imaginary part 0), and
it fails exactly when neither the anchored complex regex matches a prefix of the
stripped input nor the whole stripped input is a float literal — the claim's
failure clause holds only for this prefix reading of the regex, since `re.match`
ignores trailing text (see the counterexample). -/
theorem c5_parse_complex_amended :
    (∀ (ds1 ds2 : List Char) (fs1 fs2 : Option (List Char)) (sep : Char),
      allDigits ds1 = true → ds1 ≠ [] → allDigits (fs1.getD []) = true →
      allDigits ds2 = true → ds2 ≠ [] → allDigits (fs2.getD []) = true →
      sep = '+' ∨ sep = '-' →
      parse_complex (String.mk
          (decTok ds1 fs1 ++ ' ' :: sep :: ' ' :: (decTok ds2 fs2 ++ ['i']))) =
        some ⟨decTokVal ds1 fs1,
              if sep = '-' then -decTokVal ds2 fs2 else decTokVal ds2 fs2⟩) ∧
    (∀ (ds : List Char) (fs : Option (List Char)),
      allDigits ds = true → ds ≠ [] → allDigits (fs.getD []) = true →
      parse_complex (String.mk (decTok ds fs)) = some ⟨decTokVal ds fs, 0⟩) ∧
    (∀ s : String, parse_complex s = none ↔
      (regexMatchComplex (pystrip s.toList) = none ∧
       pyFloatVal (pystrip s.toList) = none)) := by
  refine ⟨?_, ?_, ?_⟩
  · intro ds1 ds2 fs1 fs2 sep h1 h2 h3 h4 h5 h6 hsep
    have hregex := regexMatchComplex_form ds1 ds2 fs1 fs2 sep [] h1 h2 h3 h4 h5 h6 hsep
    have hstrip : pystrip (String.mk
        (decTok ds1 fs1 ++ ' ' :: sep :: ' ' :: (decTok ds2 fs2 ++ ['i']))).toList =
        decTok ds1 fs1 ++ ' ' :: sep :: ' ' :: (decTok ds2 fs2 ++ ['i']) := by
      rw [show (String.mk
          (decTok ds1 fs1 ++ ' ' :: sep :: ' ' :: (decTok ds2 fs2 ++ ['i']))).toList =
          decTok ds1 fs1 ++ ' ' :: sep :: ' ' :: (decTok ds2 fs2 ++ ['i']) from rfl]
      apply pystrip_of_ends
      · intro c hc
        exact digit_not_space c (decTok_append_head ds1 fs1 _ h1 h2 c hc)
      · intro c hc
        rw [show decTok ds1 fs1 ++ ' ' :: sep :: ' ' :: (decTok ds2 fs2 ++ ['i']) =
            (decTok ds1 fs1 ++ ' ' :: sep :: ' ' :: decTok ds2 fs2) ++ ['i'] by simp,
          List.getLast?_concat, Option.some.injEq] at hc
        subst hc
        rfl
    simp only [parse_complex, hstrip, hregex]
  · intro ds fs h1 h2 h3
    have hnospace : ∀ c ∈ decTok ds fs, isSpaceC c = false := by
      intro c hc
      have hall : ∀ c ∈ ds, isDigitC c = true := by
        simpa [allDigits, List.all_eq_true] using h1
      cases fs with
      | none => exact digit_not_space _ (hall c hc)
      | some f =>
        have hallf : ∀ c ∈ f, isDigitC c = true := by
          simpa [allDigits, List.all_eq_true] using h3
        simp only [decTok, List.mem_append, List.mem_cons] at hc
        rcases hc with hc | rfl | hc
        · exact digit_not_space _ (hall c hc)
        · rfl
        · exact digit_not_space _ (hallf c hc)
    have hstrip : pystrip (String.mk (decTok ds fs)).toList = decTok ds fs := by
      rw [show (String.mk (decTok ds fs)).toList = decTok ds fs from rfl]
      exact pystrip_of_nonspace _ hnospace
    have hudec := matchUDec_on_tok ds fs [] h1 h2 h3 (by intro c hc; simp at hc)
    rw [List.append_nil] at hudec
    have hsign : matchSignB (decTok ds fs) = (false, decTok ds fs) := by
      apply matchSignB_not_sign
      intro c hc
      have hd := decTok_append_head ds fs [] h1 h2 c (by rwa [List.append_nil])
      exact ⟨digit_not_plus _ hd, digit_not_minus _ hd⟩
    have hregexnone : regexMatchComplex (decTok ds fs) = none := by
      simp only [regexMatchComplex, hsign, hudec]
      simp
    have htw : ((decTok ds fs).takeWhile isDigitC).isEmpty = false := by
      obtain ⟨d, ds', rfl⟩ : ∃ d t, ds = d :: t := by
        cases ds with
        | nil => exact absurd rfl h2
        | cons a b => exact ⟨a, b, rfl⟩
      obtain ⟨tl, htl⟩ := decTok_cons d ds' fs
      have hd : isDigitC d = true := by
        simp only [allDigits, List.all_cons, Bool.and_eq_true] at h1
        exact h1.1
      rw [htl, List.takeWhile_cons, hd]
      simp
    have hmant : matchMantissa (decTok ds fs) = some (decTokVal ds fs, []) := by
      rw [matchMantissa_eq_matchUDec _ htw, hudec]
    have hfloat : pyFloatVal (decTok ds fs) = some (decTokVal ds fs) := by
      simp only [pyFloatVal, hsign, hmant]
      simp
    simp only [parse_complex, hstrip, hregexnone, hfloat]
  · intro s
    rcases h1 : regexMatchComplex (pystrip s.toList) with _ | ⟨v1, v2, rest⟩
    all_goals simp only [String.toList] at h1
    · rcases h2 : pyFloatVal (pystrip s.toList) with _ | v
      all_goals simp only [String.toList] at h2
      · simp [parse_complex, String.toList, h1, h2]
      · simp [parse_complex, String.toList, h1, h2]
    · simp [parse_complex, String.toList, h1]

/-- C5 witness: the amended acceptance statements evaluated at `"1 + 2i"` and
at the bare real `"3.5"`. -/
theorem c5_parse_complex_witness :
    allDigits ['1'] = true ∧ (['1'] : List Char) ≠ [] ∧
    parse_complex (String.mk
        (decTok ['1'] none ++ ' ' :: '+' :: ' ' :: (decTok ['2'] none ++ ['i']))) =
      some ⟨decTokVal ['1'] none,
            if ('+' : Char) = '-' then -decTokVal ['2'] none else decTokVal ['2'] none⟩ ∧
    parse_complex (String.mk (decTok ['3'] (some ['5']))) =
      some ⟨decTokVal ['3'] (some ['5']), 0⟩ :=
  ⟨by decide, by decide,
   c5_parse_complex_amended.1 ['1'] ['2'] none none '+' (by decide) (by decide)
     (by decide) (by decide) (by decide) (by decide) (Or.inl rfl),
   c5_parse_complex_amended.2.1 ['3'] (some ['5']) (by decide) (by decide) (by decide)⟩

end LeanBLAS
